import Mathlib

/-!
Verification of the request admission, scheduling, and reliability layer of
the compliance-checklist evaluation application.

Each definition is a shallow embedding of one function of the source:

* `RateLimiter.checkLimit`      — lib/rate-limiter.ts (sliding-window limiter)
* `MetricsCollector.getSummary` — lib/metrics.ts (ring-buffer summaries)
* `PriorityRequestQueue`        — lib/request-queue.ts (priority scheduler)
* `RetryHandler.execute`        — lib/retry-utils.ts (bounded exponential backoff)
* `AsyncEvaluationQueue`        — lib/evaluation-queue.ts (durable job runner)
* `AlertService.checkAndAlert`  — lib/alert-service.ts (threshold alerts with cooldown)

JavaScript numbers are modelled as `Int` (timestamps, durations in ms) and
`ℚ` (rates, costs); fallible operations as `Except`; the single-threaded
event loop as a fold over an explicit event trace.
-/

namespace ChkAI

/-! ## RateLimiter (lib/rate-limiter.ts)

`checkLimit` reads the per-identifier timestamp list from the LRU cache,
prunes entries at least `interval` old, denies (without writing back) when
the pruned count has reached the limit, and otherwise records `now`.
The cache's `ttl = interval` only evicts entries whose every timestamp is
already at least `interval` old, so it is transparent to this function. -/

structure RateLimitOptions where
  interval : Int
  uniqueTokenPerInterval : Nat
deriving Repr, DecidableEq

/-- One `checkLimit(identifier)` call acting on the identifier's stored
timestamp list; returns the admission verdict and the new stored list. -/
def checkLimit (o : RateLimitOptions) (now : Int) (timestamps : List Int) :
    Bool × List Int :=
  let validTimestamps := timestamps.filter (fun ts => now - ts < o.interval)
  if o.uniqueTokenPerInterval ≤ validTimestamps.length then
    (false, timestamps)
  else
    (true, validTimestamps ++ [now])

/-- A sequence of `checkLimit` calls for one identifier at the given times:
the verdicts, and the final stored list. -/
def runLimiter (o : RateLimitOptions) (times : List Int) : List Bool × List Int :=
  times.foldl
    (fun acc t =>
      let r := checkLimit o t acc.2
      (acc.1 ++ [r.1], r.2))
    ([], [])

end ChkAI

namespace ChkAI

/-! ## MetricsCollector (lib/metrics.ts) -/

inductive MetricStatus where
  | success
  | error
deriving Repr, DecidableEq

structure APIMetrics where
  timestamp : Int
  endpoint : String
  requestId : String
  inputTokens : Int
  outputTokens : Int
  totalTokens : Int
  cachedTokens : Option Int
  cost : ℚ
  duration : ℚ
  status : MetricStatus
  errorCode : Option String
deriving Repr, DecidableEq

structure MetricsSummary where
  requestsPerMinute : Nat
  tokensPerMinute : Int
  requestsPerHour : Nat
  tokensPerHour : Int
  costPerHour : ℚ
  totalRequests : Nat
  successfulRequests : Nat
  failedRequests : Nat
  errorRate : ℚ
  totalTokens : Int
  totalInputTokens : Int
  totalOutputTokens : Int
  totalCachedTokens : Int
  totalCost : ℚ
  avgDuration : ℚ
deriving Repr, DecidableEq

/-- `MetricsCollector.getSummary()` over the current ring contents, with
`Date.now()` passed explicitly. -/
def getSummary (now : Int) (metrics : List APIMetrics) : MetricsSummary :=
  let oneMinuteAgo := now - 60 * 1000
  let oneHourAgo := now - 60 * 60 * 1000
  let oneDayAgo := now - 24 * 60 * 60 * 1000
  let lastMinute := metrics.filter (fun m => oneMinuteAgo ≤ m.timestamp)
  let lastHour := metrics.filter (fun m => oneHourAgo ≤ m.timestamp)
  let lastDay := metrics.filter (fun m => oneDayAgo ≤ m.timestamp)
  let successfulLastDay := lastDay.filter (fun m => m.status = MetricStatus.success)
  { requestsPerMinute := lastMinute.length
    tokensPerMinute := (lastMinute.map APIMetrics.totalTokens).sum
    requestsPerHour := lastHour.length
    tokensPerHour := (lastHour.map APIMetrics.totalTokens).sum
    costPerHour := (lastHour.map APIMetrics.cost).sum
    totalRequests := lastDay.length
    successfulRequests := successfulLastDay.length
    failedRequests := lastDay.length - successfulLastDay.length
    errorRate :=
      if 0 < lastDay.length then
        ((lastDay.length : ℚ) - successfulLastDay.length) / lastDay.length
      else 0
    totalTokens := (lastDay.map APIMetrics.totalTokens).sum
    totalInputTokens := (lastDay.map APIMetrics.inputTokens).sum
    totalOutputTokens := (lastDay.map APIMetrics.outputTokens).sum
    totalCachedTokens := (lastDay.map (fun m => m.cachedTokens.getD 0)).sum
    totalCost := (lastDay.map APIMetrics.cost).sum
    avgDuration :=
      if 0 < successfulLastDay.length then
        (successfulLastDay.map APIMetrics.duration).sum / successfulLastDay.length
      else 0 }

end ChkAI

namespace ChkAI

/-! ## PriorityRequestQueue (lib/request-queue.ts)

The scheduler is embedded as a state machine driven by an explicit event
trace.  An `enqueue` event inserts the request into the sorted queue and
runs `process()`; a `complete` event is the resumption of a started
operation's `await`: the caller's promise is settled, the `finally` block
runs, and the deferred `process()` fires; a `clear` event is `clear()`.
Each distinct `enqueue` call carries a `tag` naming the promise it created.
Settlements, duplicate-id drops, clear-discards and execution starts are
recorded in a log so that theorems can speak about them. -/

deriving instance DecidableEq for Except

inductive RQPriority where
  | high
  | medium
  | low
deriving Repr, DecidableEq

/-- `priorityOrder = { high: 3, medium: 2, low: 1 }`. -/
def priorityOrder : RQPriority → Nat
  | .high => 3
  | .medium => 2
  | .low => 1

structure QueuedRequest where
  id : String
  priority : RQPriority
  timestamp : Int
  tag : Nat
deriving Repr, DecidableEq

/-- `r` must be inserted in front of `q`: strictly higher priority, or equal
priority and strictly earlier timestamp (the two break conditions of the
`insertByPriority` scan). -/
def beats (r q : QueuedRequest) : Bool :=
  decide (priorityOrder q.priority < priorityOrder r.priority) ||
    (decide (priorityOrder r.priority = priorityOrder q.priority) &&
      decide (r.timestamp < q.timestamp))

/-- `insertByPriority`: splice the request at the first position whose
occupant it beats, or at the end. -/
def insertByPriority (r : QueuedRequest) : List QueuedRequest → List QueuedRequest
  | [] => [r]
  | q :: rest =>
    if beats r q then r :: q :: rest
    else q :: insertByPriority r rest

structure RQState where
  queue : List QueuedRequest
  processing : List String
  running : List QueuedRequest
  maxConcurrent : Nat
  currentConcurrent : Int
deriving Repr, DecidableEq

structure RQLog where
  settled : List (Nat × Except Int Int)
  dropped : List Nat
  cleared : List Nat
  started : List (QueuedRequest × List QueuedRequest)
deriving Repr, DecidableEq

/-- The head-scan of `process()`: requests whose id is already in the
`processing` set are shifted off and skipped (their tags are returned as
dropped); the first other request, with the remaining queue, is the one that
starts. -/
def findStart (processing : List String) :
    List QueuedRequest → List Nat × Option QueuedRequest × List QueuedRequest
  | [] => ([], none, [])
  | r :: rest =>
    if r.id ∈ processing then
      let (d, s, q) := findStart processing rest
      (r.tag :: d, s, q)
    else ([], some r, rest)

/-- One `process()` invocation: return unless below the concurrency cap and
the queue is non-empty; otherwise shift entries (dropping already-processing
duplicates) and start the first eligible request, marking its id processing
and incrementing the in-flight counter. -/
def process (s : RQState) (log : RQLog) : RQState × RQLog :=
  if (s.maxConcurrent : Int) ≤ s.currentConcurrent then (s, log)
  else
    match findStart s.processing s.queue with
    | (d, none, _) =>
      ({ s with queue := [] }, { log with dropped := log.dropped ++ d })
    | (d, some r, rest) =>
      ({ s with
          queue := rest
          processing := r.id :: s.processing
          running := r :: s.running
          currentConcurrent := s.currentConcurrent + 1 },
        { log with
            dropped := log.dropped ++ d
            started := log.started ++ [(r, rest)] })

inductive RQEvent where
  | enqueue (id : String) (priority : RQPriority) (timestamp : Int) (tag : Nat)
  | complete (tag : Nat) (result : Except Int Int)
  | clear
deriving Repr, DecidableEq

/-- One event of the scheduler's event loop.  `enqueue` inserts and drains;
`complete tag res` settles the promise of the running request `tag` with the
operation's outcome, then runs the `finally` block (remove the id from
`processing`, decrement the counter) and the deferred `process()`.  A
`complete` for a tag that is not running is a no-op (no such resumption
exists in the source).  `clear` discards the queue, empties the processing
set and zeroes the counter; running operations are unaffected. -/
def rqStep (s : RQState) (log : RQLog) : RQEvent → RQState × RQLog
  | .enqueue id priority timestamp tag =>
    process { s with queue := insertByPriority ⟨id, priority, timestamp, tag⟩ s.queue } log
  | .complete tag res =>
    match s.running.find? (fun r => r.tag == tag) with
    | none => (s, log)
    | some r =>
      process
        { s with
            running := s.running.eraseP (fun r' => r'.tag == tag)
            processing := s.processing.erase r.id
            currentConcurrent := s.currentConcurrent - 1 }
        { log with settled := log.settled ++ [(tag, res)] }
  | .clear =>
    ({ s with queue := [], processing := [], currentConcurrent := 0 },
      { log with cleared := log.cleared ++ s.queue.map QueuedRequest.tag })

def rqRunFrom (s : RQState) (log : RQLog) (events : List RQEvent) : RQState × RQLog :=
  events.foldl (fun acc e => rqStep acc.1 acc.2 e) (s, log)

def rqInit (maxConcurrent : Nat) : RQState :=
  ⟨[], [], [], maxConcurrent, 0⟩

def rqRun (maxConcurrent : Nat) (events : List RQEvent) : RQState × RQLog :=
  rqRunFrom (rqInit maxConcurrent) ⟨[], [], [], []⟩ events

end ChkAI

namespace ChkAI

/-! ## RetryHandler (lib/retry-utils.ts)

`execute` runs the operation for attempts `0..maxRetries`; the operation is
modelled as the sequence of outcomes of its successive invocations.  An
error object carries the optional `response.status` and the optional
`code`; `isRetryable` mirrors the source's truthy check on the status. -/

structure JsError where
  status : Option Int
  code : Option String
deriving Repr, DecidableEq

structure RetryOptions where
  maxRetries : Nat
  initialDelay : Int
  maxDelay : Int
  backoffMultiplier : Int
  retryableErrors : List Int
deriving Repr, DecidableEq

/-- The module-level `retryHandler` options (also the constructor defaults
except `initialDelay`, which the instance overrides to 2000). -/
def retryHandlerOptions : RetryOptions :=
  ⟨3, 2000, 10000, 2, [429, 500, 502, 503, 504]⟩

/-- `isRetryable`: a truthy `error.response?.status` is compared against the
retryable set; otherwise the network-timeout codes retry; anything else does
not. -/
def isRetryable (o : RetryOptions) (e : JsError) : Bool :=
  if e.status.getD 0 ≠ 0 then o.retryableErrors.contains (e.status.getD 0)
  else if e.code = some "ECONNABORTED" ∨ e.code = some "ETIMEDOUT" then true
  else false

/-- What one `execute` run did: the final outcome, how many times the
operation was invoked, the `onRetry(attempt, error)` invocations in order,
and the waits actually slept, in order. -/
structure ExecTrace where
  result : Except JsError Int
  calls : Nat
  retries : List (Nat × JsError)
  waits : List Int
deriving Repr, DecidableEq

/-- The body of the `for (attempt = 0; attempt <= maxRetries; ...)` loop:
`remaining = maxRetries - attempt` counts the iterations still allowed after
this one.  A success returns; a non-retryable error throws; at
`attempt = maxRetries` the loop breaks and throws the last error; otherwise
`onRetry(attempt + 1, error)` fires, the backoff wait
`min(initialDelay * multiplier ^ attempt, maxDelay)` is slept, and the loop
continues. -/
def executeLoop (o : RetryOptions) (op : Nat → Except JsError Int) :
    Nat → Nat → ExecTrace
  | attempt, remaining =>
    match op attempt with
    | .ok v => ⟨.ok v, 1, [], []⟩
    | .error e =>
      if isRetryable o e = false then ⟨.error e, 1, [], []⟩
      else
        match remaining with
        | 0 => ⟨.error e, 1, [], []⟩
        | r + 1 =>
          let delay := min (o.initialDelay * o.backoffMultiplier ^ attempt) o.maxDelay
          let t := executeLoop o op (attempt + 1) r
          ⟨t.result, t.calls + 1, (attempt + 1, e) :: t.retries, delay :: t.waits⟩

/-- `RetryHandler.execute(fn, onRetry)`. -/
def execute (o : RetryOptions) (op : Nat → Except JsError Int) : ExecTrace :=
  executeLoop o op 0 o.maxRetries

end ChkAI

namespace ChkAI

/-! ## AsyncEvaluationQueue (lib/evaluation-queue.ts)

The durable `EvaluationJob` record and the two steps the claims are about:
`processJob` (one claim/execute cycle on one job, with the unit of work's
outcome supplied) and the claiming query of `processQueue`.  The store's
`.sort({ priority: -1, createdAt: 1 })` compares the `priority` field as the
string the schema stores ('high' | 'medium' | 'low'). -/

inductive JobStatus where
  | pending
  | processing
  | completed
  | failed
deriving Repr, DecidableEq

structure EvaluationJob where
  jobId : String
  itemId : String
  status : JobStatus
  priority : String
  attempts : Nat
  maxAttempts : Nat
  error : Option String
  result : Option String
  createdAt : Int
  startedAt : Option Int
  completedAt : Option Int
  nextRetryAt : Option Int
deriving Repr, DecidableEq

/-- A fresh job as `enqueue` saves it. -/
def enqueueJob (jobId itemId : String) (priority : String) (createdAt : Int) :
    EvaluationJob :=
  { jobId := jobId, itemId := itemId, status := .pending, priority := priority
    attempts := 0, maxAttempts := 3, error := none, result := none
    createdAt := createdAt, startedAt := none, completedAt := none
    nextRetryAt := none }

/-- `processJob`: mark processing and increment `attempts`; on success mark
completed with the result; on failure increment `attempts` again, then
either fail terminally (when `attempts >= maxAttempts`) or reschedule with
`nextRetryAt = now + min(60000 * 2 ^ (attempts - 1), 600000)`. -/
def processJob (now : Int) (job : EvaluationJob)
    (outcome : Except String String) : EvaluationJob :=
  let j := { job with
    status := JobStatus.processing
    startedAt := some now
    attempts := job.attempts + 1 }
  match outcome with
  | .ok result =>
    { j with status := .completed, result := some result, completedAt := some now }
  | .error errorMessage =>
    let j2 := { j with attempts := j.attempts + 1 }
    if j2.maxAttempts ≤ j2.attempts then
      { j2 with
          status := .failed
          error := some ("최대 재시도 횟수 초과: " ++ errorMessage)
          completedAt := some now }
    else
      { j2 with
          status := .failed
          error := some errorMessage
          nextRetryAt := some (now + min (60000 * 2 ^ (j2.attempts - 1)) 600000) }

/-- The `find` filter of `processQueue`: status pending or failed, and
`nextRetryAt` unset or due. -/
def jobEligible (now : Int) (j : EvaluationJob) : Bool :=
  (j.status == JobStatus.pending || j.status == JobStatus.failed) &&
    (match j.nextRetryAt with
      | none => true
      | some t => decide (t ≤ now))

/-- The store's comparator for `.sort({ priority: -1, createdAt: 1 })`:
`priority` descending under string comparison, then `createdAt` ascending.
The BSON string order is the byte order of the UTF-8 encoding, which on
these ASCII enum values is the lexicographic order of the character data
(and coincides with Lean's `String.lt`, by `String.lt_iff_toList_lt`). -/
def mongoJobLE (a b : EvaluationJob) : Bool :=
  decide (b.priority.data < a.priority.data) ||
    (decide (a.priority = b.priority) && decide (a.createdAt ≤ b.createdAt))

/-- Stable ordered insert for `sortJobs`. -/
def insertJobSorted (j : EvaluationJob) : List EvaluationJob → List EvaluationJob
  | [] => [j]
  | e :: rest => if mongoJobLE j e then j :: e :: rest else e :: insertJobSorted j rest

/-- The store's sort: a stable sort by `mongoJobLE`. -/
def sortJobs : List EvaluationJob → List EvaluationJob
  | [] => []
  | j :: rest => insertJobSorted j (sortJobs rest)

/-- The batch `processQueue` claims: eligible jobs, sorted by the store's
comparator, limited to 5.  The claimed jobs are then processed in this
order. -/
def claimBatch (now : Int) (jobs : List EvaluationJob) : List EvaluationJob :=
  (sortJobs (jobs.filter (jobEligible now))).take 5

end ChkAI

namespace ChkAI

/-! ## AlertService (lib/alert-service.ts)

`checkAndAlert` recomputes a live summary from the metrics of the last
hour, then walks the static threshold list; a breached threshold fires
unless its `(type, severity)` key fired less than `cooldownPeriod` ago.
`alertHistory` is the JS `Map` keyed by `` `${type}-${severity}` ``, which
on these enum values is in bijection with the pair, so the key is modelled
as the pair.  `alertHistory.get(key) || 0` is lookup with default 0. -/

inductive AlertType where
  | rpm
  | tpm
  | cost
  | errorRate
  | queueLength
deriving Repr, DecidableEq

inductive AlertSeverity where
  | warning
  | critical
deriving Repr, DecidableEq

structure AlertThreshold where
  type : AlertType
  threshold : ℚ
  severity : AlertSeverity
deriving Repr, DecidableEq

/-- The static `thresholds` array of the source (0.1 and 0.2 written as
explicit rationals). -/
def defaultThresholds : List AlertThreshold :=
  [⟨.rpm, 10, .warning⟩, ⟨.rpm, 14, .critical⟩,
   ⟨.tpm, 800000, .warning⟩, ⟨.tpm, 950000, .critical⟩,
   ⟨.errorRate, mkRat 1 10, .warning⟩, ⟨.errorRate, mkRat 2 10, .critical⟩,
   ⟨.queueLength, 50, .warning⟩, ⟨.queueLength, 100, .critical⟩]

abbrev AlertKey := AlertType × AlertSeverity

abbrev AlertHistory := List (AlertKey × Int)

/-- `alertHistory.get(alertKey) || 0`: associative lookup with default 0. -/
def historyGet : AlertHistory → AlertKey → Int
  | [], _ => 0
  | e :: rest, k => if e.1 == k then e.2 else historyGet rest k

def historySet (k : AlertKey) (v : Int) : AlertHistory → AlertHistory
  | [] => [(k, v)]
  | e :: rest => if e.1 == k then (k, v) :: rest else e :: historySet k v rest

/-- The live summary `calculateRealTimeMetrics` computes from the metrics
passed to the check (the collector's last-hour slice) and the optional
queue length. -/
structure RealTimeMetrics where
  requestsPerMinute : Nat
  tokensPerMinute : Int
  tokensPerHour : Int
  hourlyCost : ℚ
  errorRate : ℚ
  totalRequests : Nat
  successfulRequests : Nat
  queueLength : Nat
deriving Repr, DecidableEq

def calculateRealTimeMetrics (now : Int) (metrics : List APIMetrics)
    (queueLength : Option Nat) : RealTimeMetrics :=
  let oneMinuteAgo := now - 60 * 1000
  let oneHourAgo := now - 60 * 60 * 1000
  let lastMinute := metrics.filter (fun m => oneMinuteAgo ≤ m.timestamp)
  let lastHour := metrics.filter (fun m => oneHourAgo ≤ m.timestamp)
  let failed := lastHour.filter (fun m => m.status = MetricStatus.error)
  { requestsPerMinute := lastMinute.length
    tokensPerMinute := (lastMinute.map APIMetrics.totalTokens).sum
    tokensPerHour := (lastHour.map APIMetrics.totalTokens).sum
    hourlyCost := (lastHour.map APIMetrics.cost).sum
    -- `failed.length / lastHour.length` as an exact rational
    -- (`mkRat a b = a / b`, `Rat.mkRat_eq_div`)
    errorRate :=
      if 0 < lastHour.length then mkRat failed.length lastHour.length else 0
    totalRequests := lastHour.length
    successfulRequests :=
      (lastHour.filter (fun m => m.status = MetricStatus.success)).length
    queueLength := queueLength.getD 0 }

/-- `getValue(summary, type)`. -/
def getValue (s : RealTimeMetrics) : AlertType → ℚ
  | .rpm => s.requestsPerMinute
  | .tpm => s.tokensPerMinute
  | .cost => s.hourlyCost
  | .errorRate => s.errorRate
  | .queueLength => s.queueLength

/-- The `for (const threshold of this.thresholds)` loop: returns the updated
history and the keys fired, in threshold-list order. -/
def checkLoop (cooldown now : Int) (value : AlertType → ℚ) :
    List AlertThreshold → AlertHistory → AlertHistory × List AlertKey
  | [], hist => (hist, [])
  | t :: rest, hist =>
    if t.threshold ≤ value t.type then
      let lastAlert := historyGet hist (t.type, t.severity)
      if now - lastAlert < cooldown then checkLoop cooldown now value rest hist
      else
        let (h, fired) :=
          checkLoop cooldown now value rest (historySet (t.type, t.severity) now hist)
        (h, (t.type, t.severity) :: fired)
    else checkLoop cooldown now value rest hist

/-- `checkAndAlert(queueLength)`: a no-op unless alerts are enabled;
otherwise take the collector's last-hour slice (`getMetrics('hour')`),
compute the live summary from it and run the threshold loop. -/
def checkAndAlert (enabled : Bool) (cooldown : Int)
    (thresholds : List AlertThreshold) (now : Int) (metrics : List APIMetrics)
    (queueLength : Option Nat) (hist : AlertHistory) :
    AlertHistory × List AlertKey :=
  if enabled = false then (hist, [])
  else
    let recentMetrics := metrics.filter (fun m => now - m.timestamp < 60 * 60 * 1000)
    let summary := calculateRealTimeMetrics now recentMetrics queueLength
    checkLoop cooldown now (getValue summary) thresholds hist

/-- One timer firing of the alert check, as seen by the service: the time,
the collector's metrics at that moment, and the queue-length argument. -/
structure AlertCheck where
  now : Int
  metrics : List APIMetrics
  queueLength : Option Nat
deriving Repr

/-- A sequence of `checkAndAlert` cycles from a given history and firing
log, accumulating fired alerts as `(time, key)` pairs in firing order. -/
def runChecksFrom (enabled : Bool) (cooldown : Int)
    (thresholds : List AlertThreshold)
    (st : AlertHistory × List (Int × AlertKey)) (checks : List AlertCheck) :
    AlertHistory × List (Int × AlertKey) :=
  checks.foldl
    (fun acc c =>
      ((checkAndAlert enabled cooldown thresholds c.now c.metrics c.queueLength
          acc.1).1,
        acc.2 ++
          (checkAndAlert enabled cooldown thresholds c.now c.metrics c.queueLength
            acc.1).2.map (fun k => (c.now, k))))
    st

/-- The service's whole life: checks from the initially empty alert
history. -/
def runChecks (enabled : Bool) (cooldown : Int) (thresholds : List AlertThreshold)
    (checks : List AlertCheck) : AlertHistory × List (Int × AlertKey) :=
  runChecksFrom enabled cooldown thresholds ([], []) checks

end ChkAI

namespace ChkAI

/-! ## Auxiliary predicates, counters and concrete inputs for the theorems -/

/-- The operation's `i`-th invocation fails with a retryable error. -/
def retryableErrAt (o : RetryOptions) (op : Nat → Except JsError Int) (i : Nat) : Prop :=
  ∃ e, op i = Except.error e ∧ isRetryable o e = true

/-- The unit of work of end-to-end scenario C: fails with HTTP 503 on its
first two invocations, then succeeds. -/
def scenarioCOp : Nat → Except JsError Int := fun n =>
  if n < 2 then Except.error ⟨some 503, none⟩ else Except.ok 42

/-- Occurrences of `tag` among a list of queued requests. -/
def tagCount (tag : Nat) (l : List QueuedRequest) : Nat :=
  l.countP (fun r => r.tag == tag)

/-- Occurrences of `tag` in the queue and among the running operations. -/
def stateTagCount (s : RQState) (tag : Nat) : Nat :=
  tagCount tag s.queue + tagCount tag s.running

/-- How many `enqueue` events of the trace carry `tag`. -/
def enqueueCount (events : List RQEvent) (tag : Nat) : Nat :=
  events.countP (fun e =>
    match e with
    | .enqueue _ _ _ t => t == tag
    | _ => false)

def natCount (l : List Nat) (tag : Nat) : Nat := l.countP (fun t => t == tag)

/-- How many settlements of the promise `tag` the log records. -/
def settledCount (log : RQLog) (tag : Nat) : Nat :=
  log.settled.countP (fun p => p.1 == tag)

/-- How many times `tag` was dropped by the duplicate-id guard. -/
def droppedCount (log : RQLog) (tag : Nat) : Nat := natCount log.dropped tag

/-- How many times `tag` was discarded by `clear()`. -/
def clearedCount (log : RQLog) (tag : Nat) : Nat := natCount log.cleared tag

/-- A scheduler state holding one queued request (tag 5), used to witness
the `clear()` theorem. -/
def clearWitnessState : RQState :=
  ⟨[⟨"req-a", RQPriority.medium, 0, 5⟩], [], [], 2, 0⟩

/-- Events after the `clear()` of the witness: unrelated traffic under a
fresh tag. -/
def clearWitnessEvents : List RQEvent :=
  [RQEvent.enqueue "req-b" RQPriority.high 10 6, RQEvent.complete 6 (Except.ok 1)]

/-- A trace with two enqueues sharing the id "req-a" (promise tags 0 and 1)
under `maxConcurrent = 2`: the first starts at once; the second reaches the
queue head while "req-a" is still processing and is dropped. -/
def dupDropEvents : List RQEvent :=
  [RQEvent.enqueue "req-a" RQPriority.medium 0 0,
   RQEvent.enqueue "req-a" RQPriority.medium 1 1,
   RQEvent.complete 0 (Except.ok 7)]

/-- The time of the most recent firing of `k` among `seen` (most recent
first). -/
def lastFire (k : AlertKey) : List (Int × AlertKey) → Option Int
  | [] => none
  | e :: rest => if e.2 == k then some e.1 else lastFire k rest

/-- For each fired alert, compared against the most recent earlier firing of
the same `(type, severity)` key: the separation must be at least the
cooldown.  `seen` holds the earlier firings, most recent first. -/
def gapsOKAux (cooldown : Int) : List (Int × AlertKey) → List (Int × AlertKey) → Bool
  | _, [] => true
  | seen, (t, k) :: rest =>
    (match lastFire k seen with
      | none => true
      | some t0 => decide (cooldown ≤ t - t0)) &&
    gapsOKAux cooldown ((t, k) :: seen) rest

/-- Every firing in the log is at least `cooldown` after the previous firing
of the same `(type, severity)` key. -/
def gapsOK (cooldown : Int) (log : List (Int × AlertKey)) : Bool :=
  gapsOKAux cooldown [] log

/-- The alert history agrees with the firing log: each key's stored
last-fired time is the time of its most recent firing (with `seen` most
recent first), and 0 when it never fired — the `get(key) || 0` default. -/
def HistSync (hist : AlertHistory) (seen : List (Int × AlertKey)) : Prop :=
  ∀ k : AlertKey, historyGet hist k = (lastFire k seen).getD 0

/-- The queue's order relation: `a` may legitimately sit in front of `b`
(`b` does not strictly beat `a`). -/
abbrev rqLE (a b : QueuedRequest) : Prop := beats b a = false

/-- All execution starts recorded in the log were legitimate: no request
left in the queue at that moment beat the one that started. -/
def StartedOK (log : RQLog) : Prop :=
  ∀ p ∈ log.started, ∀ x ∈ p.2, beats x p.1 = false

/-- Metrics snapshot for the alert scenarios: four calls at time `t`, one of
them failed (error rate 1/4). -/
def alertDemoMetricsA (t : Int) : List APIMetrics :=
  [⟨t, "generate", "r1", 100, 50, 150, none, 0, 10, .error, some "500"⟩,
   ⟨t, "generate", "r2", 100, 50, 150, none, 0, 10, .success, none⟩,
   ⟨t, "generate", "r3", 100, 50, 150, none, 0, 10, .success, none⟩,
   ⟨t, "generate", "r4", 100, 50, 150, none, 0, 10, .success, none⟩]

/-- Metrics snapshot with eight calls, one failed (error rate 1/8: above the
warning threshold, below the critical one). -/
def alertDemoMetricsB (t : Int) : List APIMetrics :=
  [⟨t, "generate", "r1", 100, 50, 150, none, 0, 10, .error, some "500"⟩,
   ⟨t, "generate", "r2", 100, 50, 150, none, 0, 10, .success, none⟩,
   ⟨t, "generate", "r3", 100, 50, 150, none, 0, 10, .success, none⟩,
   ⟨t, "generate", "r4", 100, 50, 150, none, 0, 10, .success, none⟩,
   ⟨t, "generate", "r5", 100, 50, 150, none, 0, 10, .success, none⟩,
   ⟨t, "generate", "r6", 100, 50, 150, none, 0, 10, .success, none⟩,
   ⟨t, "generate", "r7", 100, 50, 150, none, 0, 10, .success, none⟩,
   ⟨t, "generate", "r8", 100, 50, 150, none, 0, 10, .success, none⟩]

end ChkAI

namespace ChkAI

/-! ## Verified properties -/

section RateLimiterThms

/-- C2: `checkLimit` admits and records the call time exactly when the
number of recorded timestamps younger than `interval` is strictly below the
limit, and denies without recording otherwise; with limit 2 and interval
1000 ms, three rapid calls yield true, true, false, and a call after
1100 ms is admitted again. -/
theorem checkLimit_sliding_window (o : RateLimitOptions) (now : Int)
    (timestamps : List Int) :
    ((checkLimit o now timestamps).1 = true ↔
      (timestamps.filter (fun ts => now - ts < o.interval)).length <
        o.uniqueTokenPerInterval)
    ∧ (checkLimit o now timestamps).2 =
        (if (timestamps.filter (fun ts => now - ts < o.interval)).length <
            o.uniqueTokenPerInterval
         then timestamps.filter (fun ts => now - ts < o.interval) ++ [now]
         else timestamps)
    ∧ (runLimiter ⟨1000, 2⟩ [0, 0, 0, 1100]).1 = [true, true, false, true] := by
  refine ⟨?_, ?_, by decide⟩
  · simp only [checkLimit]
    by_cases hc : o.uniqueTokenPerInterval ≤
        (timestamps.filter (fun ts => now - ts < o.interval)).length
    · rw [if_pos hc]
      simp
      omega
    · rw [if_neg hc]
      simp
      omega
  · simp only [checkLimit]
    by_cases hc : o.uniqueTokenPerInterval ≤
        (timestamps.filter (fun ts => now - ts < o.interval)).length
    · rw [if_pos hc, if_neg (by omega)]
    · rw [if_neg hc, if_pos (by omega)]

end RateLimiterThms

section MetricsThms

lemma countP_error_add_success (l : List APIMetrics) :
    l.countP (fun m => m.status = MetricStatus.error) +
      l.countP (fun m => m.status = MetricStatus.success) = l.length := by
  induction l with
  | nil => simp
  | cons m t ih =>
    rcases h : m.status <;> simp [List.countP_cons, h] <;> omega

/-- C8: `getSummary().errorRate` is the number of non-success records in
the last-day window divided by the window's size, and exactly 0 on an empty
window; `avgDuration` is the mean duration of the window's successful
records, and 0 when there are none. -/
theorem getSummary_errorRate_avgDuration (now : Int) (metrics : List APIMetrics) :
    (getSummary now metrics).errorRate =
      (if (metrics.filter
            (fun m => now - 24 * 60 * 60 * 1000 ≤ m.timestamp)).length = 0 then 0
       else
        ((metrics.filter (fun m => now - 24 * 60 * 60 * 1000 ≤ m.timestamp)).countP
            (fun m => m.status = MetricStatus.error) : ℚ) /
          (metrics.filter (fun m => now - 24 * 60 * 60 * 1000 ≤ m.timestamp)).length)
    ∧ (getSummary now metrics).avgDuration =
      (if ((metrics.filter (fun m => now - 24 * 60 * 60 * 1000 ≤ m.timestamp)).filter
            (fun m => m.status = MetricStatus.success)).length = 0 then 0
       else
        (((metrics.filter (fun m => now - 24 * 60 * 60 * 1000 ≤ m.timestamp)).filter
            (fun m => m.status = MetricStatus.success)).map APIMetrics.duration).sum /
          (((metrics.filter (fun m => now - 24 * 60 * 60 * 1000 ≤ m.timestamp)).filter
            (fun m => m.status = MetricStatus.success)).length : ℚ)) := by
  have hcount := countP_error_add_success
    (metrics.filter (fun m => now - 24 * 60 * 60 * 1000 ≤ m.timestamp))
  have hsucc := List.countP_eq_length_filter
    (fun (m : APIMetrics) => decide (m.status = MetricStatus.success))
    (metrics.filter (fun m => now - 24 * 60 * 60 * 1000 ≤ m.timestamp))
  constructor
  · simp only [getSummary]
    rw [hsucc] at hcount
    split_ifs with h1 h2
    · exfalso; omega
    · have hq : ((metrics.filter
            (fun m => now - 24 * 60 * 60 * 1000 ≤ m.timestamp)).countP
              (fun m => m.status = MetricStatus.error) : ℚ)
          = ((metrics.filter
              (fun m => now - 24 * 60 * 60 * 1000 ≤ m.timestamp)).length : ℚ) -
            (((metrics.filter
                (fun m => now - 24 * 60 * 60 * 1000 ≤ m.timestamp)).filter
                  (fun m => m.status = MetricStatus.success)).length : ℚ) := by
        have hc := congrArg (Nat.cast : Nat → ℚ) hcount
        rw [Nat.cast_add] at hc
        linarith
      rw [hq]
    · rfl
    · exfalso; omega
  · simp only [getSummary]
    split_ifs with h1 h2 <;> first | rfl | (exfalso; omega)

end MetricsThms

section JobRunnerThms

/-- C6 (code bug): a job whose unit of work fails retryably on every
attempt is claimed with `maxAttempts = 3` but, because `processJob`
increments `attempts` both when marking the job processing and again in its
failure handler, reaches terminal `failed` after only 2 claim cycles with
`attempts = 4`, exceeding `maxAttempts` — not after 3 cycles with
`attempts = 3` as specified. -/
theorem processJob_attempts_overcount :
    (enqueueJob "job-1" "item-1" "medium" 0).maxAttempts = 3 ∧
    (enqueueJob "job-1" "item-1" "medium" 0).attempts = 0 ∧
    (processJob 1000 (enqueueJob "job-1" "item-1" "medium" 0)
        (Except.error "transient provider error")).status = JobStatus.failed ∧
    (processJob 1000 (enqueueJob "job-1" "item-1" "medium" 0)
        (Except.error "transient provider error")).attempts = 2 ∧
    (processJob 2000 (processJob 1000 (enqueueJob "job-1" "item-1" "medium" 0)
          (Except.error "transient provider error"))
        (Except.error "transient provider error")).status = JobStatus.failed ∧
    (processJob 2000 (processJob 1000 (enqueueJob "job-1" "item-1" "medium" 0)
          (Except.error "transient provider error"))
        (Except.error "transient provider error")).attempts = 4 ∧
    (processJob 2000 (processJob 1000 (enqueueJob "job-1" "item-1" "medium" 0)
          (Except.error "transient provider error"))
        (Except.error "transient provider error")).maxAttempts = 3 := by
  decide

/-- C7 (code bug): `processQueue` sorts its claim batch with
`{ priority: -1 }` on the string-typed `priority` field, so the descending
string order 'medium' > 'low' > 'high' puts a medium-priority job ahead of
an older high-priority job, instead of the specified high > medium > low. -/
theorem claimBatch_priority_order_bug :
    (claimBatch 100 [enqueueJob "job-high" "item-1" "high" 0,
        enqueueJob "job-medium" "item-2" "medium" 1]).map EvaluationJob.jobId
      = ["job-medium", "job-high"] ∧
    (claimBatch 100 [enqueueJob "job-medium" "item-2" "medium" 1,
        enqueueJob "job-low" "item-3" "low" 2,
        enqueueJob "job-high" "item-1" "high" 0]).map EvaluationJob.jobId
      = ["job-medium", "job-low", "job-high"] := by
  decide

end JobRunnerThms

section RetryThms

lemma executeLoop_ok (o : RetryOptions) (op : Nat → Except JsError Int)
    (a r : Nat) (v : Int) (h : op a = Except.ok v) :
    executeLoop o op a r = ⟨Except.ok v, 1, [], []⟩ := by
  rw [executeLoop, h]

lemma executeLoop_nonretry (o : RetryOptions) (op : Nat → Except JsError Int)
    (a r : Nat) (e : JsError) (h : op a = Except.error e)
    (hr : isRetryable o e = false) :
    executeLoop o op a r = ⟨Except.error e, 1, [], []⟩ := by
  rw [executeLoop, h]
  simp [hr]

lemma executeLoop_exhausted (o : RetryOptions) (op : Nat → Except JsError Int)
    (a : Nat) (e : JsError) (h : op a = Except.error e)
    (hr : isRetryable o e = true) :
    executeLoop o op a 0 = ⟨Except.error e, 1, [], []⟩ := by
  rw [executeLoop, h]
  simp [hr]

lemma executeLoop_retry (o : RetryOptions) (op : Nat → Except JsError Int)
    (a r : Nat) (e : JsError) (h : op a = Except.error e)
    (hr : isRetryable o e = true) :
    executeLoop o op a (r + 1) =
      ⟨(executeLoop o op (a + 1) r).result,
        (executeLoop o op (a + 1) r).calls + 1,
        (a + 1, e) :: (executeLoop o op (a + 1) r).retries,
        min (o.initialDelay * o.backoffMultiplier ^ a) o.maxDelay ::
          (executeLoop o op (a + 1) r).waits⟩ := by
  rw [executeLoop, h]
  simp [hr]

lemma executeLoop_retries_length_eq_waits_length (o : RetryOptions)
    (op : Nat → Except JsError Int) :
    ∀ (r a : Nat),
      (executeLoop o op a r).retries.length = (executeLoop o op a r).waits.length := by
  intro r
  induction r with
  | zero =>
    intro a
    rcases hop : op a with e | v
    · by_cases hr : isRetryable o e = true
      · rw [executeLoop_exhausted o op a e hop hr]
        rfl
      · rw [executeLoop_nonretry o op a 0 e hop (by simpa using hr)]
        rfl
    · rw [executeLoop_ok o op a 0 v hop]
      rfl
  | succ r ih =>
    intro a
    rcases hop : op a with e | v
    · by_cases hr : isRetryable o e = true
      · rw [executeLoop_retry o op a r e hop hr]
        simpa using ih (a + 1)
      · rw [executeLoop_nonretry o op a (r + 1) e hop (by simpa using hr)]
        rfl
    · rw [executeLoop_ok o op a (r + 1) v hop]
      rfl


lemma executeLoop_waits_formula (o : RetryOptions) (op : Nat → Except JsError Int) :
    ∀ (r a n : Nat), n < (executeLoop o op a r).waits.length →
      (executeLoop o op a r).waits[n]? =
        some (min (o.initialDelay * o.backoffMultiplier ^ (a + n)) o.maxDelay) := by
  intro r
  induction r with
  | zero =>
    intro a n h
    rcases hop : op a with e | v
    · by_cases hr : isRetryable o e = true
      · rw [executeLoop_exhausted o op a e hop hr] at h
        simp at h
      · rw [executeLoop_nonretry o op a 0 e hop (by simpa using hr)] at h
        simp at h
    · rw [executeLoop_ok o op a 0 v hop] at h
      simp at h
  | succ r ih =>
    intro a n h
    rcases hop : op a with e | v
    · by_cases hr : isRetryable o e = true
      · rw [executeLoop_retry o op a r e hop hr] at h ⊢
        cases n with
        | zero => simp
        | succ n =>
          simp only [List.length_cons, Nat.add_lt_add_iff_right] at h
          have := ih (a + 1) n (by simpa using h)
          simp only [List.getElem?_cons_succ]
          rw [this, Nat.add_assoc, Nat.add_comm 1 n]
      · rw [executeLoop_nonretry o op a (r + 1) e hop (by simpa using hr)] at h
        simp at h
    · rw [executeLoop_ok o op a (r + 1) v hop] at h
      simp at h

lemma executeLoop_all_retryable_success (o : RetryOptions)
    (op : Nat → Except JsError Int) (v : Int) :
    ∀ (k r a : Nat), (∀ i, i < k → retryableErrAt o op (a + i)) →
      op (a + k) = Except.ok v →
      (executeLoop o op a r).calls = min r k + 1 ∧
      (executeLoop o op a r).retries.length = min r k ∧
      (k ≤ r → (executeLoop o op a r).result = Except.ok v) := by
  intro k
  induction k with
  | zero =>
    intro r a _ hok
    rw [Nat.add_zero] at hok
    rw [executeLoop_ok o op a r v hok]
    simp
  | succ k ih =>
    intro r a hfail hok
    obtain ⟨e, he, hre⟩ := hfail 0 (by omega)
    rw [Nat.add_zero] at he
    rcases r with _ | r
    · rw [executeLoop_exhausted o op a e he hre]
      simp
    · have step := ih r (a + 1)
        (fun i hi => by
          have := hfail (i + 1) (by omega)
          rwa [show a + (i + 1) = a + 1 + i by omega] at this)
        (by rwa [show a + 1 + k = a + (k + 1) by omega])
      rw [executeLoop_retry o op a r e he hre]
      refine ⟨?_, ?_, fun hk => ?_⟩
      · simpa [Nat.succ_min_succ] using step.1
      · simpa [Nat.succ_min_succ] using step.2.1
      · simpa using step.2.2 (by omega)

lemma executeLoop_nonretryable (o : RetryOptions)
    (op : Nat → Except JsError Int) (e : JsError) :
    ∀ (j r a : Nat), (∀ i, i < j → retryableErrAt o op (a + i)) → j ≤ r →
      op (a + j) = Except.error e → isRetryable o e = false →
      (executeLoop o op a r).result = Except.error e ∧
      (executeLoop o op a r).calls = j + 1 ∧
      (executeLoop o op a r).waits.length = j := by
  intro j
  induction j with
  | zero =>
    intro r a _ _ herr hnr
    rw [Nat.add_zero] at herr
    rw [executeLoop_nonretry o op a r e herr hnr]
    simp
  | succ j ih =>
    intro r a hfail hjr herr hnr
    obtain ⟨e0, he0, hre0⟩ := hfail 0 (by omega)
    rw [Nat.add_zero] at he0
    rcases r with _ | r
    · omega
    · have step := ih r (a + 1)
        (fun i hi => by
          have := hfail (i + 1) (by omega)
          rwa [show a + (i + 1) = a + 1 + i by omega] at this)
        (by omega)
        (by rwa [show a + 1 + j = a + (j + 1) by omega])
        hnr
      rw [executeLoop_retry o op a r e0 he0 hre0]
      exact ⟨step.1, by simpa using step.2.1, by simpa using step.2.2⟩

/-- C4: under `RetryHandler.execute`, `onRetry` fires once before each wait;
the wait before the `n`-th retry is `min(initialDelay * multiplier^n,
maxDelay)`; when the first `k` invocations fail retryably and the `(k+1)`-st
succeeds, the operation is invoked exactly `min(maxRetries, k) + 1` times
with `min(maxRetries, k)` retries (and succeeds when `k ≤ maxRetries`); and
a non-retryable error propagates immediately, with no further invocation
and no wait after it. -/
theorem execute_retry_schedule (o : RetryOptions) (op : Nat → Except JsError Int) :
    ((execute o op).retries.length = (execute o op).waits.length)
    ∧ (∀ n : Nat, n < (execute o op).waits.length →
        (execute o op).waits[n]? =
          some (min (o.initialDelay * o.backoffMultiplier ^ n) o.maxDelay))
    ∧ (∀ k v, (∀ i, i < k → retryableErrAt o op i) → op k = Except.ok v →
        (execute o op).calls = min o.maxRetries k + 1 ∧
        (execute o op).retries.length = min o.maxRetries k ∧
        (k ≤ o.maxRetries → (execute o op).result = Except.ok v))
    ∧ (∀ j e, (∀ i, i < j → retryableErrAt o op i) → j ≤ o.maxRetries →
        op j = Except.error e → isRetryable o e = false →
        (execute o op).result = Except.error e ∧
        (execute o op).calls = j + 1 ∧
        (execute o op).waits.length = j) := by
  refine ⟨executeLoop_retries_length_eq_waits_length o op o.maxRetries 0,
    fun n h => ?_, fun k v hfail hok => ?_, fun j e hfail hj herr hnr => ?_⟩
  · simpa using executeLoop_waits_formula o op o.maxRetries 0 n h
  · exact executeLoop_all_retryable_success o op v k o.maxRetries 0
      (fun i hi => by simpa using hfail i hi) (by simpa using hok)
  · exact executeLoop_nonretryable o op e j o.maxRetries 0
      (fun i hi => by simpa using hfail i hi) hj (by simpa using herr) hnr

theorem execute_retry_schedule_witness :
    (execute retryHandlerOptions scenarioCOp).result = Except.ok 42 ∧
    (execute retryHandlerOptions scenarioCOp).calls = 3 ∧
    (execute retryHandlerOptions scenarioCOp).retries.length = 2 ∧
    (execute retryHandlerOptions scenarioCOp).waits[0]? = some 2000 ∧
    (execute retryHandlerOptions scenarioCOp).waits[1]? = some 4000 := by
  obtain ⟨hlen, hw, hsucc, -⟩ :=
    execute_retry_schedule retryHandlerOptions scenarioCOp
  obtain ⟨hc, hr, hres⟩ := hsucc 2 42
    (fun i hi => ⟨⟨some 503, none⟩, by
        interval_cases i <;> exact ⟨by decide, by decide⟩⟩)
    (by decide)
  refine ⟨hres (by decide), by rw [hc]; decide, by rw [hr]; decide, ?_, ?_⟩
  · have := hw 0 (by decide)
    rw [this]; decide
  · have := hw 1 (by decide)
    rw [this]; decide

end RetryThms

section RequestQueueThms

lemma rqRunFrom_nil (s : RQState) (log : RQLog) : rqRunFrom s log [] = (s, log) := rfl

lemma rqRunFrom_cons (s : RQState) (log : RQLog) (e : RQEvent) (es : List RQEvent) :
    rqRunFrom s log (e :: es) =
      rqRunFrom (rqStep s log e).1 (rqStep s log e).2 es := rfl

lemma process_max_eq (s : RQState) (log : RQLog) :
    (process s log).1.maxConcurrent = s.maxConcurrent := by
  unfold process
  split
  · rfl
  · split <;> rfl

lemma rqStep_max_eq (s : RQState) (log : RQLog) (e : RQEvent) :
    (rqStep s log e).1.maxConcurrent = s.maxConcurrent := by
  rcases e with ⟨id, p, ts, tag⟩ | ⟨tag, res⟩ | _
  · exact process_max_eq _ _
  · rw [rqStep]
    rcases h : s.running.find? (fun r => r.tag == tag) with - | r <;> rw [h]
    exact process_max_eq _ _
  · rfl

lemma process_concurrent_le (s : RQState) (log : RQLog)
    (h : s.currentConcurrent ≤ (s.maxConcurrent : Int)) :
    (process s log).1.currentConcurrent ≤ (s.maxConcurrent : Int) := by
  unfold process
  split
  · exact h
  · split
    · exact h
    · rename_i hlt _
      simp only []
      omega

lemma rqStep_concurrent_le (s : RQState) (log : RQLog) (e : RQEvent)
    (h : s.currentConcurrent ≤ (s.maxConcurrent : Int)) :
    (rqStep s log e).1.currentConcurrent ≤ ((rqStep s log e).1.maxConcurrent : Int) := by
  rw [rqStep_max_eq]
  rcases e with ⟨id, p, ts, tag⟩ | ⟨tag, res⟩ | _
  · exact process_concurrent_le _ _ h
  · rw [rqStep]
    rcases hf : s.running.find? (fun r => r.tag == tag) with - | r <;> rw [hf]
    · exact h
    · exact process_concurrent_le _ _ (by simp; omega)
  · simp [rqStep]

lemma rqRunFrom_concurrent_le :
    ∀ (events : List RQEvent) (s : RQState) (log : RQLog),
      s.currentConcurrent ≤ (s.maxConcurrent : Int) →
      (rqRunFrom s log events).1.currentConcurrent ≤
        ((rqRunFrom s log events).1.maxConcurrent : Int) := by
  intro events
  induction events with
  | nil => intro s log h; exact h
  | cons e es ih =>
    intro s log h
    rw [rqRunFrom_cons]
    exact ih _ _ (rqStep_concurrent_le s log e h)

lemma rqRunFrom_max_eq :
    ∀ (events : List RQEvent) (s : RQState) (log : RQLog),
      (rqRunFrom s log events).1.maxConcurrent = s.maxConcurrent := by
  intro events
  induction events with
  | nil => intro s log; rfl
  | cons e es ih =>
    intro s log
    rw [rqRunFrom_cons, ih, rqStep_max_eq]

/-- C1: for every event trace (bursts of enqueues, completions, clears in
any order), the scheduler's in-flight counter never exceeds the configured
concurrency cap — every intermediate state is the final state of a prefix
of the trace, so this bounds the counter at all times. -/
theorem rq_currentConcurrent_le_max (m : Nat) (events : List RQEvent) :
    (rqRun m events).1.currentConcurrent ≤ (m : Int) := by
  have h := rqRunFrom_concurrent_le events (rqInit m) ⟨[], [], [], []⟩ (by simp [rqInit])
  rwa [rqRunFrom_max_eq] at h

lemma beats_asymm {a b : QueuedRequest} (h : beats a b = true) : beats b a = false := by
  simp only [beats, Bool.or_eq_true, Bool.and_eq_true, decide_eq_true_eq,
    Bool.or_eq_false_iff, Bool.and_eq_false_iff, decide_eq_false_iff_not] at h ⊢
  omega

lemma beats_trans {a b c : QueuedRequest} (hab : beats a b = true)
    (hbc : beats b c = true) : beats a c = true := by
  simp only [beats, Bool.or_eq_true, Bool.and_eq_true, decide_eq_true_eq] at hab hbc ⊢
  omega

lemma beats_false_of_beats {r q x : QueuedRequest} (hrq : beats r q = true)
    (hxq : beats x q = false) : beats x r = false := by
  by_contra hx
  rw [Bool.not_eq_false] at hx
  rw [beats_trans hx hrq] at hxq
  exact Bool.true_eq_false.mp hxq

lemma mem_insertByPriority {x r : QueuedRequest} :
    ∀ {l : List QueuedRequest}, x ∈ insertByPriority r l → x = r ∨ x ∈ l := by
  intro l
  induction l with
  | nil => simp [insertByPriority]
  | cons q rest ih =>
    rw [insertByPriority]
    by_cases hb : beats r q
    · rw [if_pos hb]
      intro hx
      simpa using hx
    · rw [if_neg hb]
      intro hx
      rcases List.mem_cons.mp hx with rfl | hx
      · exact Or.inr (List.mem_cons_self _ _)
      · rcases ih hx with rfl | hx
        · exact Or.inl rfl
        · exact Or.inr (List.mem_cons_of_mem _ hx)

lemma pairwise_insertByPriority (r : QueuedRequest) :
    ∀ {l : List QueuedRequest}, l.Pairwise rqLE →
      (insertByPriority r l).Pairwise rqLE := by
  intro l
  induction l with
  | nil => simp [insertByPriority]
  | cons q rest ih =>
    intro h
    rcases List.pairwise_cons.mp h with ⟨hq, hrest⟩
    rw [insertByPriority]
    by_cases hb : beats r q
    · rw [if_pos hb]
      refine List.pairwise_cons.mpr ⟨?_, h⟩
      intro x hx
      rcases List.mem_cons.mp hx with rfl | hx
      · exact beats_asymm hb
      · exact beats_false_of_beats hb (hq x hx)
    · rw [if_neg hb]
      refine List.pairwise_cons.mpr ⟨?_, ih hrest⟩
      intro x hx
      rcases mem_insertByPriority hx with rfl | hx
      · exact Bool.eq_false_iff.mpr hb
      · exact hq x hx

lemma findStart_sorted (p : List String) :
    ∀ (q : List QueuedRequest), q.Pairwise rqLE →
      ∀ d r rest, findStart p q = (d, some r, rest) →
        rest.Pairwise rqLE ∧ ∀ x ∈ rest, beats x r = false := by
  intro q
  induction q with
  | nil =>
    intro _ d r rest h
    simp [findStart] at h
  | cons a q ih =>
    intro hp d r rest h
    rcases List.pairwise_cons.mp hp with ⟨ha, hq⟩
    rw [findStart] at h
    by_cases hmem : a.id ∈ p
    · rw [if_pos hmem] at h
      rcases hfs : findStart p q with ⟨d', s', q'⟩
      rw [hfs] at h
      injection h with h1 h2
      injection h2 with h2 h3
      subst h2
      subst h3
      exact ih hq d' r _ hfs
    · rw [if_neg hmem] at h
      injection h with h1 h2
      injection h2 with h2 h3
      subst h3
      injection h2 with h2
      subst h2
      exact ⟨hq, ha⟩

lemma process_sorted (s : RQState) (log : RQLog) (hq : s.queue.Pairwise rqLE)
    (hlog : StartedOK log) :
    (process s log).1.queue.Pairwise rqLE ∧ StartedOK (process s log).2 := by
  unfold process
  split
  · exact ⟨hq, hlog⟩
  · rcases hfs : findStart s.processing s.queue with ⟨d, res, rest⟩
    rcases res with - | r
    · exact ⟨List.Pairwise.nil, hlog⟩
    · obtain ⟨hrest, hmin⟩ := findStart_sorted s.processing s.queue hq d r rest hfs
      refine ⟨hrest, ?_⟩
      intro p hp x hx
      rcases List.mem_append.mp hp with hp | hp
      · exact hlog p hp x hx
      · rcases List.mem_singleton.mp hp with rfl
        exact hmin x hx

lemma rqStep_sorted (s : RQState) (log : RQLog) (e : RQEvent)
    (hq : s.queue.Pairwise rqLE) (hlog : StartedOK log) :
    (rqStep s log e).1.queue.Pairwise rqLE ∧ StartedOK (rqStep s log e).2 := by
  rcases e with ⟨id, p, ts, tag⟩ | ⟨tag, res⟩ | _
  · exact process_sorted _ _ (pairwise_insertByPriority _ hq) hlog
  · rw [rqStep]
    rcases h : s.running.find? (fun r => r.tag == tag) with - | r <;> rw [h]
    · exact ⟨hq, hlog⟩
    · exact process_sorted _ _ hq hlog
  · exact ⟨List.Pairwise.nil, hlog⟩

lemma rqRunFrom_sorted :
    ∀ (events : List RQEvent) (s : RQState) (log : RQLog),
      s.queue.Pairwise rqLE → StartedOK log →
      (rqRunFrom s log events).1.queue.Pairwise rqLE ∧
        StartedOK (rqRunFrom s log events).2 := by
  intro events
  induction events with
  | nil => intro s log hq hlog; exact ⟨hq, hlog⟩
  | cons e es ih =>
    intro s log hq hlog
    rw [rqRunFrom_cons]
    obtain ⟨hq', hlog'⟩ := rqStep_sorted s log e hq hlog
    exact ih _ _ hq' hlog'

/-- C3: whenever the scheduler admits a request into execution, no request
still in the queue at that moment has strictly higher priority, or equal
priority with a strictly earlier enqueue timestamp — admission follows
(priority descending, timestamp ascending) among the queued requests, for
every event trace. -/
theorem rq_starts_respect_priority_order (m : Nat) (events : List RQEvent) :
    ((rqRun m events).2.started.all
      fun p => p.2.all fun x => !(beats x p.1)) = true := by
  obtain ⟨-, hlog⟩ := rqRunFrom_sorted events (rqInit m) ⟨[], [], [], []⟩
    List.Pairwise.nil (by intro p hp; simp at hp)
  rw [List.all_eq_true]
  intro p hp
  rw [List.all_eq_true]
  intro x hx
  rw [Bool.not_eq_true']
  exact hlog p hp x hx

lemma tagCount_insertByPriority (tag : Nat) (r : QueuedRequest) :
    ∀ (l : List QueuedRequest),
      tagCount tag (insertByPriority r l) =
        (if r.tag == tag then 1 else 0) + tagCount tag l := by
  intro l
  induction l with
  | nil => simp [insertByPriority, tagCount, List.countP_cons]
  | cons q rest ih =>
    rw [insertByPriority]
    by_cases hb : beats r q
    · rw [if_pos hb]
      simp only [tagCount, List.countP_cons]
      by_cases ht : r.tag == tag <;> simp [ht] <;> omega
    · rw [if_neg hb]
      simp only [tagCount, List.countP_cons] at ih ⊢
      rw [ih]
      by_cases ht : r.tag == tag <;> simp [ht] <;> omega

lemma findStart_none_rest (p : List String) :
    ∀ (q : List QueuedRequest) (d : List Nat) (rest : List QueuedRequest),
      findStart p q = (d, none, rest) → rest = [] := by
  intro q
  induction q with
  | nil =>
    intro d rest h
    rw [findStart] at h
    injection h with h1 h2
    injection h2 with h2 h3
    exact h3.symm
  | cons a q ih =>
    intro d rest h
    rw [findStart] at h
    by_cases hmem : a.id ∈ p
    · rw [if_pos hmem] at h
      rcases hfs : findStart p q with ⟨d', s', q'⟩
      rw [hfs] at h
      injection h with h1 h2
      injection h2 with h2 h3
      subst h2
      subst h3
      exact ih d' _ hfs
    · rw [if_neg hmem] at h
      injection h with h1 h2
      injection h2 with h2 h3
      exact absurd h2 (by simp)

lemma findStart_count (tag : Nat) (p : List String) :
    ∀ (q : List QueuedRequest) (d : List Nat) (res : Option QueuedRequest)
      (rest : List QueuedRequest), findStart p q = (d, res, rest) →
      tagCount tag q = natCount d tag +
        (match res with
          | none => 0
          | some r => if r.tag == tag then 1 else 0) + tagCount tag rest := by
  intro q
  induction q with
  | nil =>
    intro d res rest h
    rw [findStart] at h
    injection h with h1 h2
    injection h2 with h2 h3
    subst h1
    subst h2
    subst h3
    simp [tagCount, natCount]
  | cons a q ih =>
    intro d res rest h
    rw [findStart] at h
    by_cases hmem : a.id ∈ p
    · rw [if_pos hmem] at h
      rcases hfs : findStart p q with ⟨d', s', q'⟩
      rw [hfs] at h
      injection h with h1 h2
      injection h2 with h2 h3
      subst h1
      subst h2
      subst h3
      have := ih d' _ _ hfs
      simp only [tagCount, natCount, List.countP_cons] at this ⊢
      by_cases ht : a.tag == tag <;> simp [ht] at this ⊢ <;> omega
    · rw [if_neg hmem] at h
      injection h with h1 h2
      injection h2 with h2 h3
      subst h1
      subst h2
      subst h3
      simp only [tagCount, natCount, List.countP_cons, List.countP_nil]
      by_cases ht : a.tag == tag <;> simp [ht] <;> omega

lemma process_settled_eq (s : RQState) (log : RQLog) :
    (process s log).2.settled = log.settled := by
  unfold process
  split
  · rfl
  · rcases hfs : findStart s.processing s.queue with ⟨d, res, rest⟩
    rcases res with - | r <;> rfl

lemma process_cleared_eq (s : RQState) (log : RQLog) :
    (process s log).2.cleared = log.cleared := by
  unfold process
  split
  · rfl
  · rcases hfs : findStart s.processing s.queue with ⟨d, res, rest⟩
    rcases res with - | r <;> rfl

lemma process_count (tag : Nat) (s : RQState) (log : RQLog) :
    stateTagCount (process s log).1 tag + droppedCount (process s log).2 tag =
      stateTagCount s tag + droppedCount log tag := by
  unfold process
  split
  · rfl
  · rcases hfs : findStart s.processing s.queue with ⟨d, res, rest⟩
    have hcount := findStart_count tag s.processing s.queue d res rest hfs
    rcases res with - | r
    · have hrest := findStart_none_rest s.processing s.queue d rest hfs
      subst hrest
      simp only [stateTagCount, droppedCount, natCount, tagCount,
        List.countP_append, List.countP_nil] at hcount ⊢
      omega
    · simp only [stateTagCount, droppedCount, natCount, tagCount,
        List.countP_append, List.countP_cons] at hcount ⊢
      by_cases ht : r.tag == tag <;> simp [ht] at hcount ⊢ <;> omega

lemma tagCount_eraseP (tag t0 : Nat) :
    ∀ (l : List QueuedRequest) (r : QueuedRequest),
      l.find? (fun x => x.tag == t0) = some r →
      tagCount tag (l.eraseP (fun x => x.tag == t0)) +
        (if t0 == tag then 1 else 0) = tagCount tag l := by
  intro l
  induction l with
  | nil => intro r h; simp at h
  | cons a rest ih =>
    intro r h
    by_cases ha : (a.tag == t0) = true
    · simp only [List.eraseP_cons, ha, cond_true]
      have haeq : a.tag = t0 := by simpa using ha
      simp only [tagCount, List.countP_cons]
      subst haeq
      omega
    · simp only [List.eraseP_cons, ha, cond_false]
      rw [List.find?_cons_of_neg _ (by simpa using ha)] at h
      have := ih r h
      simp only [tagCount, List.countP_cons] at this ⊢
      by_cases ht : a.tag == tag <;> simp [ht] at this ⊢ <;> omega

lemma rqStep_enqueue_eq (s : RQState) (log : RQLog) (id : String)
    (pr : RQPriority) (ts : Int) (t : Nat) :
    rqStep s log (RQEvent.enqueue id pr ts t) =
      process { s with queue := insertByPriority ⟨id, pr, ts, t⟩ s.queue } log := rfl

lemma rqStep_clear_eq (s : RQState) (log : RQLog) :
    rqStep s log RQEvent.clear =
      ({ s with queue := [], processing := [], currentConcurrent := 0 },
        { log with cleared := log.cleared ++ s.queue.map QueuedRequest.tag }) := rfl

lemma process_count_full (tag : Nat) (s : RQState) (log : RQLog) :
    stateTagCount (process s log).1 tag + settledCount (process s log).2 tag +
      droppedCount (process s log).2 tag + clearedCount (process s log).2 tag =
    stateTagCount s tag + settledCount log tag + droppedCount log tag +
      clearedCount log tag := by
  have hc := process_count tag s log
  simp only [settledCount, clearedCount, process_settled_eq, process_cleared_eq]
  omega

lemma rqStep_count (tag : Nat) (s : RQState) (log : RQLog) (e : RQEvent) :
    stateTagCount (rqStep s log e).1 tag + settledCount (rqStep s log e).2 tag +
      droppedCount (rqStep s log e).2 tag + clearedCount (rqStep s log e).2 tag =
    stateTagCount s tag + settledCount log tag + droppedCount log tag +
      clearedCount log tag + enqueueCount [e] tag := by
  rcases e with ⟨id, pr, ts, t⟩ | ⟨t, res⟩ | _
  · rw [rqStep_enqueue_eq]
    refine (process_count_full tag _ _).trans ?_
    simp only [stateTagCount, enqueueCount, List.countP_cons, List.countP_nil]
    rw [tagCount_insertByPriority]
    by_cases ht : t = tag
    · subst ht
      simp
      omega
    · simp [ht]
  · rw [rqStep]
    rcases hf : s.running.find? (fun r => r.tag == t) with - | r <;> rw [hf]
    · simp [enqueueCount]
    · refine (process_count_full tag _ _).trans ?_
      have he := tagCount_eraseP tag t s.running r hf
      simp only [stateTagCount, settledCount, droppedCount, clearedCount,
        natCount, tagCount, enqueueCount, List.countP_append,
        List.countP_cons, List.countP_nil] at he ⊢
      by_cases ht : t = tag
      · subst ht
        simp at he ⊢
        omega
      · simp [ht] at he ⊢
        exact he
  · rw [rqStep_clear_eq]
    simp only [stateTagCount, settledCount, droppedCount, clearedCount,
      natCount, tagCount, enqueueCount, List.countP_append, List.countP_nil,
      List.countP_map, List.countP_cons]
    have hcomp : List.countP ((fun x => x == tag) ∘ QueuedRequest.tag) s.queue =
        List.countP (fun r => r.tag == tag) s.queue :=
      List.countP_congr (fun x _ => Iff.rfl)
    have hzero : (if false = true then 1 else 0) = 0 := rfl
    rw [hzero]
    omega

lemma rqRunFrom_count (tag : Nat) :
    ∀ (events : List RQEvent) (s : RQState) (log : RQLog),
      stateTagCount (rqRunFrom s log events).1 tag +
        settledCount (rqRunFrom s log events).2 tag +
        droppedCount (rqRunFrom s log events).2 tag +
        clearedCount (rqRunFrom s log events).2 tag =
      stateTagCount s tag + settledCount log tag + droppedCount log tag +
        clearedCount log tag + enqueueCount events tag := by
  intro events
  induction events with
  | nil => intro s log; simp [rqRunFrom_nil, enqueueCount]
  | cons e es ih =>
    intro s log
    rw [rqRunFrom_cons, ih]
    have hstep := rqStep_count tag s log e
    have hsplit : enqueueCount (e :: es) tag = enqueueCount [e] tag + enqueueCount es tag := by
      simp only [enqueueCount, List.countP_cons, List.countP_nil]
      omega
    omega

lemma process_dropped_extends (s : RQState) (log : RQLog) :
    ∃ t, (process s log).2.dropped = log.dropped ++ t := by
  unfold process
  split
  · exact ⟨[], by simp⟩
  · rcases hfs : findStart s.processing s.queue with ⟨d, res, rest⟩
    rcases res with - | r
    · exact ⟨d, rfl⟩
    · exact ⟨d, rfl⟩

lemma rqStep_settled_extends (s : RQState) (log : RQLog) (e : RQEvent) :
    ∃ t, (rqStep s log e).2.settled = log.settled ++ t ∧
      ∀ p ∈ t, RQEvent.complete p.1 p.2 = e := by
  rcases e with ⟨id, pr, ts, t⟩ | ⟨t, res⟩ | _
  · refine ⟨[], ?_, by simp⟩
    rw [rqStep_enqueue_eq, process_settled_eq]
    simp
  · rw [rqStep]
    rcases hf : s.running.find? (fun r => r.tag == t) with - | r <;> rw [hf]
    · exact ⟨[], by simp, by simp⟩
    · refine ⟨[(t, res)], ?_, ?_⟩
      · rw [process_settled_eq]
      · intro p hp
        rcases List.mem_singleton.mp hp with rfl
        rfl
  · exact ⟨[], by simp [rqStep_clear_eq], by simp⟩

lemma rqStep_dropped_cleared_extends (s : RQState) (log : RQLog) (e : RQEvent) :
    ∃ t2 t3, (rqStep s log e).2.dropped = log.dropped ++ t2 ∧
      (rqStep s log e).2.cleared = log.cleared ++ t3 := by
  rcases e with ⟨id, pr, ts, t⟩ | ⟨t, res⟩ | _
  · rw [rqStep_enqueue_eq]
    obtain ⟨t2, ht2⟩ := process_dropped_extends
      { s with queue := insertByPriority ⟨id, pr, ts, t⟩ s.queue } log
    exact ⟨t2, [], ht2, by rw [process_cleared_eq]; simp⟩
  · rw [rqStep]
    rcases hf : s.running.find? (fun r => r.tag == t) with - | r <;> rw [hf]
    · exact ⟨[], [], by simp, by simp⟩
    · obtain ⟨t2, ht2⟩ := process_dropped_extends
        { s with
            running := s.running.eraseP (fun r' => r'.tag == t)
            processing := s.processing.erase r.id
            currentConcurrent := s.currentConcurrent - 1 }
        { log with settled := log.settled ++ [(t, res)] }
      exact ⟨t2, [], ht2, by rw [process_cleared_eq]; simp⟩
  · rw [rqStep_clear_eq]
    exact ⟨[], s.queue.map QueuedRequest.tag, by simp, rfl⟩

lemma rqRunFrom_dropped_cleared_extends :
    ∀ (events : List RQEvent) (s : RQState) (log : RQLog),
      ∃ t2 t3, (rqRunFrom s log events).2.dropped = log.dropped ++ t2 ∧
        (rqRunFrom s log events).2.cleared = log.cleared ++ t3 := by
  intro events
  induction events with
  | nil => intro s log; exact ⟨[], [], by simp [rqRunFrom_nil], by simp [rqRunFrom_nil]⟩
  | cons e es ih =>
    intro s log
    obtain ⟨a2, a3, ha2, ha3⟩ := rqStep_dropped_cleared_extends s log e
    obtain ⟨b2, b3, hb2, hb3⟩ := ih (rqStep s log e).1 (rqStep s log e).2
    refine ⟨a2 ++ b2, a3 ++ b3, ?_, ?_⟩
    · rw [rqRunFrom_cons, hb2, ha2, List.append_assoc]
    · rw [rqRunFrom_cons, hb3, ha3, List.append_assoc]

lemma rqRunFrom_settled_extends :
    ∀ (events : List RQEvent) (s : RQState) (log : RQLog),
      ∃ t, (rqRunFrom s log events).2.settled = log.settled ++ t ∧
        ∀ p ∈ t, RQEvent.complete p.1 p.2 ∈ events := by
  intro events
  induction events with
  | nil => intro s log; exact ⟨[], by simp [rqRunFrom_nil], by simp⟩
  | cons e es ih =>
    intro s log
    obtain ⟨t1, ht1, hm1⟩ := rqStep_settled_extends s log e
    obtain ⟨t2, ht2, hm2⟩ := ih (rqStep s log e).1 (rqStep s log e).2
    refine ⟨t1 ++ t2, ?_, ?_⟩
    · rw [rqRunFrom_cons, ht2, ht1, List.append_assoc]
    · intro p hp
      rcases List.mem_append.mp hp with hp | hp
      · rw [hm1 p hp]
        exact List.mem_cons_self _ _
      · exact List.mem_cons_of_mem _ (hm2 p hp)

/-- C5 (amended) : promise settlement accounting.  Every settlement carries
the `(tag, outcome)` of the completion that produced it (the operation's
result on success, its error on failure), and for every tag the number of
enqueues equals settlements + duplicate-id drops + clear-discards + the
requests still queued or running: a promise is settled at most once per
enqueue, and exactly once unless the request was dropped by the
duplicate-id guard, discarded by `clear()`, or is still pending/in flight. -/
theorem rq_settlement_conservation (m : Nat) (events : List RQEvent) (tag : Nat) :
    enqueueCount events tag =
      settledCount (rqRun m events).2 tag + droppedCount (rqRun m events).2 tag +
        clearedCount (rqRun m events).2 tag + stateTagCount (rqRun m events).1 tag
    ∧ ((rqRun m events).2.settled.all
        fun p => events.any fun e => e == RQEvent.complete p.1 p.2) = true := by
  constructor
  · have h := rqRunFrom_count tag events (rqInit m) ⟨[], [], [], []⟩
    have hz : stateTagCount (rqInit m) tag = 0 := rfl
    have hs0 : settledCount ⟨[], [], [], []⟩ tag = 0 := rfl
    have hd0 : droppedCount ⟨[], [], [], []⟩ tag = 0 := rfl
    have hc0 : clearedCount ⟨[], [], [], []⟩ tag = 0 := rfl
    rw [hz, hs0, hd0, hc0] at h
    simp only [rqRun]
    omega
  · obtain ⟨t, ht, hm⟩ := rqRunFrom_settled_extends events (rqInit m) ⟨[], [], [], []⟩
    rw [List.all_eq_true]
    intro p hp
    rw [List.any_eq_true]
    simp only [rqRun] at hp
    rw [ht] at hp
    simp only [List.nil_append] at hp
    exact ⟨RQEvent.complete p.1 p.2, hm p hp, by simp⟩

/-- C5 (counterexample): with `maxConcurrent = 2` and two enqueues sharing
the id "req-a", the trace ends quiescent (nothing queued, running or
processing), tag 1 was enqueued, yet its promise was never settled — it was
dropped by the duplicate-id guard; so enqueued promises are not always
settled. -/
theorem rq_duplicate_id_drop_counterexample :
    (rqRun 2 dupDropEvents).1.queue = [] ∧
    (rqRun 2 dupDropEvents).1.running = [] ∧
    (rqRun 2 dupDropEvents).1.processing = [] ∧
    enqueueCount dupDropEvents 1 = 1 ∧
    settledCount (rqRun 2 dupDropEvents).2 1 = 0 ∧
    droppedCount (rqRun 2 dupDropEvents).2 1 = 1 := by
  decide

/-- C10: `clear()` empties the queue and the processing set and zeroes the
in-flight counter; the promise of a request that was queued (and not also
running) at the moment of the clear is never settled by any continuation of
the trace that does not re-enqueue its tag. -/
theorem rq_clear_resets_and_abandons (s : RQState) (log : RQLog)
    (events : List RQEvent) (tag : Nat)
    (hrun : tagCount tag s.running = 0)
    (henq : enqueueCount events tag = 0) :
    (rqStep s log RQEvent.clear).1.queue = [] ∧
    (rqStep s log RQEvent.clear).1.processing = [] ∧
    (rqStep s log RQEvent.clear).1.currentConcurrent = 0 ∧
    settledCount
      (rqRunFrom (rqStep s log RQEvent.clear).1 (rqStep s log RQEvent.clear).2
        events).2 tag = settledCount log tag := by
  refine ⟨rfl, rfl, rfl, ?_⟩
  have hcount := rqRunFrom_count tag events (rqStep s log RQEvent.clear).1
    (rqStep s log RQEvent.clear).2
  have hstate : stateTagCount (rqStep s log RQEvent.clear).1 tag = 0 := by
    rw [rqStep_clear_eq]
    simp only [stateTagCount, tagCount, List.countP_nil]
    simpa [tagCount] using hrun
  have hsettled1 : settledCount (rqStep s log RQEvent.clear).2 tag =
      settledCount log tag := rfl
  obtain ⟨t, ht, -⟩ := rqRunFrom_settled_extends events
    (rqStep s log RQEvent.clear).1 (rqStep s log RQEvent.clear).2
  obtain ⟨t2, t3, ht2, ht3⟩ := rqRunFrom_dropped_cleared_extends events
    (rqStep s log RQEvent.clear).1 (rqStep s log RQEvent.clear).2
  have hlen : settledCount (rqRunFrom (rqStep s log RQEvent.clear).1
      (rqStep s log RQEvent.clear).2 events).2 tag =
      settledCount (rqStep s log RQEvent.clear).2 tag +
        t.countP (fun p => p.1 == tag) := by
    simp only [settledCount, ht, List.countP_append]
  have hdlen : droppedCount (rqRunFrom (rqStep s log RQEvent.clear).1
      (rqStep s log RQEvent.clear).2 events).2 tag =
      droppedCount (rqStep s log RQEvent.clear).2 tag +
        natCount t2 tag := by
    simp only [droppedCount, natCount, ht2, List.countP_append]
  have hclen : clearedCount (rqRunFrom (rqStep s log RQEvent.clear).1
      (rqStep s log RQEvent.clear).2 events).2 tag =
      clearedCount (rqStep s log RQEvent.clear).2 tag +
        natCount t3 tag := by
    simp only [clearedCount, natCount, ht3, List.countP_append]
  rw [henq] at hcount
  omega

theorem rq_clear_resets_and_abandons_witness :
    (rqStep clearWitnessState ⟨[], [], [], []⟩ RQEvent.clear).1.queue = [] ∧
    (rqStep clearWitnessState ⟨[], [], [], []⟩ RQEvent.clear).1.processing = [] ∧
    (rqStep clearWitnessState ⟨[], [], [], []⟩ RQEvent.clear).1.currentConcurrent = 0 ∧
    settledCount
      (rqRunFrom (rqStep clearWitnessState ⟨[], [], [], []⟩ RQEvent.clear).1
        (rqStep clearWitnessState ⟨[], [], [], []⟩ RQEvent.clear).2
        clearWitnessEvents).2 5 = settledCount ⟨[], [], [], []⟩ 5 :=
  rq_clear_resets_and_abandons clearWitnessState ⟨[], [], [], []⟩
    clearWitnessEvents 5 (by decide) (by decide)

end RequestQueueThms

section AlertThms

lemma historyGet_histSet_self (k : AlertKey) (v : Int) :
    ∀ (h : AlertHistory), historyGet (historySet k v h) k = v := by
  intro h
  induction h with
  | nil => simp [historySet, historyGet]
  | cons e rest ih =>
    rw [historySet]
    by_cases he : (e.1 == k) = true
    · rw [if_pos he]
      simp [historyGet]
    · rw [if_neg he]
      simp only [historyGet]
      rw [if_neg (by simp_all)]
      exact ih

lemma historyGet_histSet_ne (k k' : AlertKey) (v : Int) (hne : ¬k' = k) :
    ∀ (h : AlertHistory), historyGet (historySet k v h) k' = historyGet h k' := by
  have hkk : ¬((k, v).1 == k') = true := by
    simp only [beq_iff_eq]
    exact fun hc => hne hc.symm
  intro h
  induction h with
  | nil =>
    rw [historySet]
    simp only [historyGet]
    rw [if_neg hkk]
  | cons e rest ih =>
    rw [historySet]
    by_cases he : (e.1 == k) = true
    · rw [if_pos he]
      have heq : e.1 = k := by simpa using he
      have he' : ¬(e.1 == k') = true := by
        simp only [beq_iff_eq, heq]
        exact fun hc => hne hc.symm
      simp only [historyGet]
      rw [if_neg hkk, if_neg he']
    · rw [if_neg he]
      by_cases he' : (e.1 == k') = true
      · simp only [historyGet]
        rw [if_pos he', if_pos he']
      · simp only [historyGet]
        rw [if_neg he', if_neg he']
        exact ih

lemma checkLoop_sync (cooldown now : Int) (value : AlertType → ℚ) :
    ∀ (thr : List AlertThreshold) (hist : AlertHistory)
      (seen : List (Int × AlertKey)), HistSync hist seen →
      HistSync (checkLoop cooldown now value thr hist).1
        (((checkLoop cooldown now value thr hist).2.map
          (fun k => (now, k))).reverse ++ seen) ∧
      gapsOKAux cooldown seen
        ((checkLoop cooldown now value thr hist).2.map (fun k => (now, k))) =
        true := by
  intro thr
  induction thr with
  | nil =>
    intro hist seen hsync
    exact ⟨by simpa using hsync, rfl⟩
  | cons t rest ih =>
    intro hist seen hsync
    rw [checkLoop]
    by_cases hbr : t.threshold ≤ value t.type
    · rw [if_pos hbr]
      by_cases hcd : now - historyGet hist (t.type, t.severity) < cooldown
      · rw [if_pos hcd]
        exact ih hist seen hsync
      · rw [if_neg hcd]
        have hsync' : HistSync (historySet (t.type, t.severity) now hist)
            ((now, (t.type, t.severity)) :: seen) := by
          intro k'
          by_cases hk : k' = (t.type, t.severity)
          · subst hk
            rw [historyGet_histSet_self, lastFire, if_pos (by simp)]
            rfl
          · rw [historyGet_histSet_ne _ _ _ hk, hsync k', lastFire,
              if_neg (by simpa using fun hc => hk hc.symm)]
        have ihres := ih (historySet (t.type, t.severity) now hist)
          ((now, (t.type, t.severity)) :: seen) hsync'
        rcases hcl : checkLoop cooldown now value rest
          (historySet (t.type, t.severity) now hist) with ⟨h', fired⟩
        rw [hcl] at ihres
        constructor
        · simpa [List.append_assoc] using ihres.1
        · rw [List.map_cons, gapsOKAux]
          have hfac :
              (match lastFire (t.type, t.severity) seen with
                | none => true
                | some t0 => decide (cooldown ≤ now - t0)) = true := by
            rcases hf : lastFire (t.type, t.severity) seen with - | t0
            · rfl
            · have := hsync (t.type, t.severity)
              rw [hf] at this
              simp only [Option.getD_some] at this
              rw [decide_eq_true_iff]
              omega
          rw [hfac, Bool.true_and]
          simpa using ihres.2
    · rw [if_neg hbr]
      exact ih hist seen hsync

lemma gapsOKAux_append (cooldown : Int) :
    ∀ (l1 l2 seen : List (Int × AlertKey)),
      gapsOKAux cooldown seen (l1 ++ l2) =
        (gapsOKAux cooldown seen l1 &&
          gapsOKAux cooldown (l1.reverse ++ seen) l2) := by
  intro l1
  induction l1 with
  | nil => intro l2 seen; simp [gapsOKAux]
  | cons e l1 ih =>
    intro l2 seen
    rcases e with ⟨t, k⟩
    rw [List.cons_append, gapsOKAux, gapsOKAux, ih]
    rw [Bool.and_assoc]
    have : l1.reverse ++ ((t, k) :: seen) = ((t, k) :: l1).reverse ++ seen := by
      simp
    rw [this]

lemma checkAndAlert_sync (enabled : Bool) (cooldown : Int)
    (thresholds : List AlertThreshold) (now : Int) (metrics : List APIMetrics)
    (queueLength : Option Nat) (hist : AlertHistory)
    (seen : List (Int × AlertKey)) (hsync : HistSync hist seen) :
    HistSync
      (checkAndAlert enabled cooldown thresholds now metrics queueLength hist).1
      (((checkAndAlert enabled cooldown thresholds now metrics queueLength
          hist).2.map (fun k => (now, k))).reverse ++ seen) ∧
    gapsOKAux cooldown seen
      ((checkAndAlert enabled cooldown thresholds now metrics queueLength
        hist).2.map (fun k => (now, k))) = true := by
  unfold checkAndAlert
  by_cases he : enabled = false
  · rw [if_pos he]
    exact ⟨by simpa using hsync, rfl⟩
  · rw [if_neg he]
    exact checkLoop_sync cooldown now _ thresholds hist seen hsync

lemma runChecksFrom_gapsOK (enabled : Bool) (cooldown : Int)
    (thresholds : List AlertThreshold) :
    ∀ (checks : List AlertCheck) (hist : AlertHistory)
      (acc : List (Int × AlertKey)),
      HistSync hist acc.reverse → gapsOK cooldown acc = true →
      gapsOK cooldown
        (runChecksFrom enabled cooldown thresholds (hist, acc) checks).2 = true := by
  intro checks
  induction checks with
  | nil => intro hist acc _ hacc; exact hacc
  | cons c cs ih =>
    intro hist acc hsync hacc
    obtain ⟨hsync', hgaps⟩ := checkAndAlert_sync enabled cooldown thresholds
      c.now c.metrics c.queueLength hist acc.reverse hsync
    have hstep : runChecksFrom enabled cooldown thresholds (hist, acc) (c :: cs) =
        runChecksFrom enabled cooldown thresholds
          ((checkAndAlert enabled cooldown thresholds c.now c.metrics
              c.queueLength hist).1,
            acc ++
              (checkAndAlert enabled cooldown thresholds c.now c.metrics
                c.queueLength hist).2.map (fun k => (c.now, k))) cs := rfl
    rw [hstep]
    apply ih
    · rw [List.reverse_append]
      exact hsync'
    · unfold gapsOK at hacc ⊢
      rw [gapsOKAux_append, hacc, Bool.true_and, List.append_nil]
      exact hgaps

/-- C9: across every sequence of `checkAndAlert` cycles, two firings of the
same `(type, severity)` pair are separated by at least `cooldownPeriod`
even when the breaching condition persists (`gapsOK` checks each firing
against the most recent earlier firing of its pair); distinct pairs are
suppressed independently: with a persistent error-rate breach above both
thresholds, the warning and the critical alert both fire in the same check,
neither fires one minute later, and both fire again after the cooldown; and
a pair still in cooldown does not block the other pair of the same type
from firing. -/
theorem checkAndAlert_cooldown :
    (∀ (enabled : Bool) (cooldown : Int) (thresholds : List AlertThreshold)
        (checks : List AlertCheck),
      gapsOK cooldown (runChecks enabled cooldown thresholds checks).2 = true)
    ∧ (runChecks true 300000 defaultThresholds
        [⟨1000000, alertDemoMetricsA 1000000, none⟩,
          ⟨1060000, alertDemoMetricsA 1060000, none⟩,
          ⟨1400000, alertDemoMetricsA 1400000, none⟩]).2 =
      [(1000000, (AlertType.errorRate, AlertSeverity.warning)),
        (1000000, (AlertType.errorRate, AlertSeverity.critical)),
        (1400000, (AlertType.errorRate, AlertSeverity.warning)),
        (1400000, (AlertType.errorRate, AlertSeverity.critical))]
    ∧ (runChecks true 300000 defaultThresholds
        [⟨1000000, alertDemoMetricsB 1000000, none⟩,
          ⟨1060000, alertDemoMetricsA 1060000, none⟩]).2 =
      [(1000000, (AlertType.errorRate, AlertSeverity.warning)),
        (1060000, (AlertType.errorRate, AlertSeverity.critical))] := by
  refine ⟨?_, by decide, by decide⟩
  intro enabled cooldown thresholds checks
  exact runChecksFrom_gapsOK enabled cooldown thresholds checks [] []
    (fun k => rfl) rfl

end AlertThms

end ChkAI
